import Mathlib

/-!
Verification development for the fire-db core (src/core/slab.h, src/core/gpu.h).

The C++ sources are shallowly embedded:
* machine integers become `Nat` / `Int` (uint64 values are < 2^64 by
  construction: they are decoded from 8 bytes);
* the float payload of vectors is embedded as exact rationals `ℚ`;
* `std::unordered_map<uint64_t,uint64_t>` is embedded as an association
  list with update/erase/find operations (the map has no observable
  iteration order in any of the verified operations);
* the id-slab log file is embedded as the list of bytes it contains, and
  `IdSlab::replay_log` is embedded byte-for-byte, including the behaviour
  of `std::istream::read` on short reads (partially filled buffer on a
  short read, fail-fast afterwards) on a little-endian host.
-/

namespace FireDB

/-! ### Byte-level helpers (little-endian, as read/written by the C++ code) -/

/-- Little-endian value of a list of bytes (least significant byte first). -/
def decodeLE (bs : List Nat) : Nat :=
  bs.foldr (fun b acc => b + 256 * acc) 0

/-- The 8 bytes of a uint64 in memory on a little-endian host. -/
def toBytes8 (n : Nat) : List Nat :=
  [n % 256, n / 256 % 256, n / 65536 % 256, n / 16777216 % 256,
   n / 4294967296 % 256, n / 1099511627776 % 256,
   n / 281474976710656 % 256, n / 72057594037927936 % 256]

/-- Result of `istream::read(buf, 8)` when only `avail` bytes remain before
EOF: the available bytes are stored into the low end of the 8-byte buffer,
whose remaining bytes keep their previous contents `prev`. -/
def read8 (avail : List Nat) (prev : Nat) : Nat :=
  decodeLE (avail ++ (toBytes8 prev).drop avail.length)

/-- Reinterpret a uint64 bit pattern as a signed int64 (two's complement). -/
def asInt64 (n : Nat) : Int :=
  if n < 9223372036854775808 then (n : Int) else (n : Int) - 18446744073709551616

/-- The uint64 bit pattern of an int64 value (two's complement). -/
def int64ToNat (i : Int) : Nat :=
  (i % 18446744073709551616).toNat

/-! ### Association-list model of `std::unordered_map<uint64_t,uint64_t>` -/

/-- Lookup in the user→auto map (`find`/`count`/`operator[]` read). -/
def mapFind (m : List (Nat × Nat)) (k : Nat) : Option Nat :=
  (m.find? (fun p => p.1 == k)).map (fun p => p.2)

/-- `unordered_map::erase`. -/
def mapErase (m : List (Nat × Nat)) (k : Nat) : List (Nat × Nat) :=
  m.filter (fun p => p.1 != k)

/-- `m[k] = v` (insert-or-assign). -/
def mapInsert (m : List (Nat × Nat)) (k : Nat) (v : Nat) : List (Nat × Nat) :=
  (k, v) :: mapErase m k

/-! ### IdSlab (src/core/slab.h lines 23-136) -/

/-- In-memory state of an `IdSlab`: the `user_auto` map, the `auto_row`
vector and the `auto_id` counter. -/
structure IdSlab where
  user_auto : List (Nat × Nat)
  auto_row : List Int
  auto_id : Nat
deriving DecidableEq

/-- One 25-byte log record as the code writes it: `op:u8, user_id:u64,
auto_id:u64, row_index:i64`, little-endian. -/
structure LogRec where
  op : Nat
  uid : Nat
  aid : Nat
  row : Int
deriving DecidableEq

/-- A record whose fields fit the machine types the code uses. -/
def LogRec.wf (r : LogRec) : Prop :=
  r.op < 256 ∧ r.uid < 18446744073709551616 ∧ r.aid < 18446744073709551616 ∧
    -9223372036854775808 ≤ r.row ∧ r.row < 9223372036854775808

instance : DecidablePred LogRec.wf := fun r => by
  unfold LogRec.wf
  infer_instance

/-- The 25 bytes `IdSlab::write_log_entry` appends for one record. -/
def encodeRecord (r : LogRec) : List Nat :=
  r.op :: (toBytes8 r.uid ++ toBytes8 r.aid ++ toBytes8 (int64ToNat r.row))

/-- Concatenated byte image of a list of records. -/
def encodeLog (rs : List LogRec) : List Nat :=
  (rs.map encodeRecord).flatten

/-- Effect of the loop body of `IdSlab::replay_log` for one decoded record
(op dispatch on INSERT = 1 / DELETE = 2; anything else is ignored). -/
def replayStep (st : IdSlab) (op : Nat) (uid aid : Nat) (row : Int) : IdSlab :=
  if op = 1 then
    { user_auto := mapInsert st.user_auto uid aid
      auto_row :=
        (if st.auto_row.length ≤ aid then
            st.auto_row ++ List.replicate (aid + 1 - st.auto_row.length) (-1)
          else st.auto_row).set aid row
      auto_id := if st.auto_id ≤ aid then aid + 1 else st.auto_id }
  else if op = 2 then
    { user_auto := mapErase st.user_auto uid
      auto_row := if aid < st.auto_row.length then st.auto_row.set aid (-1) else st.auto_row
      auto_id := st.auto_id }
  else st

/-- The replay loop of `IdSlab::replay_log` over the raw log bytes.
`ruid`, `raid`, `rrow` are the current contents of the loop's local
variables `user_id`, `read_aid`, `row_index` (which live outside the loop
and keep their values across iterations).  When a field read hits EOF the
stream enters a fail state: the partially filled field keeps its stale
high bytes (`read8`), the later fields are not read at all, yet the body
of the current iteration still executes, and the loop then exits. -/
def replayLoop : List Nat → Nat → Nat → Nat → IdSlab → IdSlab
  | [], _, _, _, st => st
  | opb :: rest, ruid, raid, rrow, st =>
    if 8 ≤ rest.length then
      if 8 ≤ (rest.drop 8).length then
        if 8 ≤ ((rest.drop 8).drop 8).length then
          replayLoop (((rest.drop 8).drop 8).drop 8)
            (decodeLE (rest.take 8)) (decodeLE ((rest.drop 8).take 8))
            (decodeLE (((rest.drop 8).drop 8).take 8))
            (replayStep st opb (decodeLE (rest.take 8))
              (decodeLE ((rest.drop 8).take 8))
              (asInt64 (decodeLE (((rest.drop 8).drop 8).take 8))))
        else
          replayStep st opb (decodeLE (rest.take 8)) (decodeLE ((rest.drop 8).take 8))
            (asInt64 (read8 ((rest.drop 8).drop 8) rrow))
      else
        replayStep st opb (decodeLE (rest.take 8)) (read8 (rest.drop 8) raid) (asInt64 rrow)
    else
      replayStep st opb (read8 rest ruid) raid (asInt64 rrow)
termination_by bs _ _ _ _ => bs.length
decreasing_by
  simp only [List.length_drop, List.length_cons]
  omega

/-- `IdSlab::replay_log`: run the loop from the start of the file on the
empty in-memory state, then enforce `auto_id ≥ auto_row.size()`.
The initial register values `ruid raid rrow` model the (uninitialised)
local variables. -/
def replay_log (bytes : List Nat) (ruid raid rrow : Nat) : IdSlab :=
  let st := replayLoop bytes ruid raid rrow ⟨[], [], 0⟩
  { st with auto_id := max st.auto_id st.auto_row.length }

/-- `IdSlab::insert`: returns the optional assigned auto id, the new state
and the bytes appended to the log file. -/
def IdSlab.insert (st : IdSlab) (user_id : Nat) (row_index : Int) :
    Option Nat × IdSlab × List Nat :=
  if (mapFind st.user_auto user_id).isSome then (none, st, [])
  else
    (some st.auto_id,
     { user_auto := mapInsert st.user_auto user_id st.auto_id
       auto_row := st.auto_row ++ [row_index]
       auto_id := st.auto_id + 1 },
     encodeRecord ⟨1, user_id, st.auto_id, row_index⟩)

/-- `IdSlab::remove`: returns the new state and the bytes appended. -/
def IdSlab.remove (st : IdSlab) (user_id : Nat) : IdSlab × List Nat :=
  match mapFind st.user_auto user_id with
  | none => (st, [])
  | some aid =>
    ({ user_auto := mapErase st.user_auto user_id
       auto_row := if aid < st.auto_row.length then st.auto_row.set aid (-1) else st.auto_row
       auto_id := st.auto_id },
     encodeRecord ⟨2, user_id, aid, -1⟩)

/-- `IdSlab::get_row`. -/
def IdSlab.get_row (st : IdSlab) (aid : Nat) : Int :=
  if aid < st.auto_row.length then st.auto_row.getD aid (-1) else -1

/-- `IdSlab::get_row_from_user`. -/
def IdSlab.get_row_from_user (st : IdSlab) (uid : Nat) : Int :=
  match mapFind st.user_auto uid with
  | none => -1
  | some aid => st.get_row aid

/-! ### MatrixSlab (src/core/slab.h lines 138-217) -/

/-- The 128-byte `SlabHeader`.  The `_pad` bytes carry no information and
are omitted. -/
structure SlabHeader where
  magic : Nat
  version : Nat
  count : Nat
  dim : Nat
  capacity : Nat
deriving DecidableEq

/-- A mapped `MatrixSlab`: the header and the float payload of the data
region (`capacity * dim` float32 cells, embedded as exact rationals). -/
structure MatrixSlab where
  header : SlabHeader
  data : List ℚ
deriving DecidableEq

/-- `INITIAL_CAPACITY` from `MatrixSlab`. -/
def INITIAL_CAPACITY : Nat := 1000

/-- The state the `MatrixSlab` constructor produces for a fresh file:
`ftruncate` zero-fills the new file, then the code assigns `magic`,
`count`, `dim` and `capacity` through the mapping.  `version` is never
written by the constructor, so it keeps the zero fill. -/
def MatrixSlab.create (dimension : Nat) : MatrixSlab :=
  { header := { magic := 0x26872687, version := 0, count := 0,
                dim := dimension, capacity := INITIAL_CAPACITY }
    data := List.replicate (INITIAL_CAPACITY * dimension) 0 }

/-- The `MatrixSlab` constructor (`MatrixSlab::MatrixSlab`): when the file
exists it is mapped as it is on disk — no field of the header is examined
or changed; when it does not exist, a fresh slab is initialised with the
given dimension.  The code has no failure path other than the `mmap` /
`ftruncate` system-call errors, which are environmental. -/
def MatrixSlab.construct (file_exists : Bool) (on_disk : MatrixSlab) (dimension : Nat) :
    MatrixSlab :=
  if file_exists then on_disk else MatrixSlab.create dimension

/-- `MatrixSlab::grow_file`: `ftruncate` the file to `new_capacity` rows
(zero-filling any extension), remap, and update `header.capacity`. -/
def MatrixSlab.grow_file (m : MatrixSlab) (new_capacity : Nat) : MatrixSlab :=
  { header := { m.header with capacity := new_capacity }
    data := m.data.take (new_capacity * m.header.dim) ++
      List.replicate (new_capacity * m.header.dim - m.data.length) 0 }

/-- `MatrixSlab::add_vector`: grow (doubling) when full, `memcpy` the
`dim` floats of the vector into row slot `count`, then increment the
count. -/
def MatrixSlab.add_vector (m : MatrixSlab) (v : List ℚ) : MatrixSlab :=
  let m1 := if m.header.capacity ≤ m.header.count then
      m.grow_file (m.header.capacity * 2) else m
  { header := { m1.header with count := m1.header.count + 1 }
    data := m1.data.take (m1.header.count * m1.header.dim) ++ v ++
      m1.data.drop (m1.header.count * m1.header.dim + m1.header.dim) }

/-- Reading row `r` of the data region: `dim` floats starting at offset
`r * dim` of the data pointer. -/
def MatrixSlab.readRow (m : MatrixSlab) (r : Nat) : List ℚ :=
  (m.data.drop (r * m.header.dim)).take m.header.dim

/-- The `MatrixSlab` states reachable from creation of a new file by a
sequence of appends of `dim`-sized vectors. -/
inductive MatrixSlab.Reachable : MatrixSlab → Prop
  | create (dimension : Nat) : MatrixSlab.Reachable (MatrixSlab.create dimension)
  | append (m : MatrixSlab) (v : List ℚ) (hv : v.length = m.header.dim) :
      MatrixSlab.Reachable m → MatrixSlab.Reachable (m.add_vector v)

/-! ### GpuIndex (src/core/gpu.h) -/

/-- `max_batch_size` from `GpuIndex`. -/
def max_batch_size : Nat := 100

/-- One entry of a result list: row index and squared-L2 score. -/
structure SearchResult where
  id : Nat
  score : ℚ
deriving DecidableEq

/-- Dot product of two vectors, as the GEMM accumulates it. -/
def dotQ (x q : List ℚ) : ℚ :=
  (List.zipWith (fun a b => a * b) x q).sum

/-- Squared L2 norm, as `compute_norms_kernel` (and the host loops in
`add_single_vector` / `search`) accumulate it: the sum of `val * val`. -/
def sqnormQ (x : List ℚ) : ℚ := dotQ x x

/-- Cell `idx` of `d_results` after the `cublasSgemm` call with
`alpha = -2`, `beta = 0`, `op(A) = T`: the column-major `count × num_queries`
matrix with leading dimension `count`, so cell `idx` holds
`-2 * (db row (idx % count)) · (query (idx / count))`. -/
def gemmCell (db queries : List (List ℚ)) (idx : Nat) : ℚ :=
  -2 * dotQ (db.getD (idx % db.length) []) (queries.getD (idx / db.length) [])

/-- `compute_l2_dist_kernel` output for cell `idx`: the GEMM value plus
`db_norms[idx % num_db] + query_norms[idx / num_db]`, written in place. -/
def l2Cell (db queries : List (List ℚ)) (idx : Nat) : ℚ :=
  gemmCell db queries idx + sqnormQ (db.getD (idx % db.length) []) +
    sqnormQ (queries.getD (idx / db.length) [])

/-- The strict-weak order `std::pair<float,int>::operator<` induces on the
candidate pairs, as a total preorder usable by the sort: lexicographic
(score, then row index). -/
def pairLe (a b : ℚ × Nat) : Prop :=
  a.1 < b.1 ∨ (a.1 = b.1 ∧ a.2 ≤ b.2)

instance : DecidableRel pairLe := by
  intro a b
  unfold pairLe
  infer_instance

instance : IsTotal (ℚ × Nat) pairLe where
  total a b := by
    rcases lt_trichotomy a.1 b.1 with h | h | h
    · exact Or.inl (Or.inl h)
    · rcases Nat.le_total a.2 b.2 with h2 | h2
      · exact Or.inl (Or.inr ⟨h, h2⟩)
      · exact Or.inr (Or.inr ⟨h.symm, h2⟩)
    · exact Or.inr (Or.inl h)

instance : IsTrans (ℚ × Nat) pairLe where
  trans a b c hab hbc := by
    rcases hab with h1 | ⟨h1, h1'⟩ <;> rcases hbc with h2 | ⟨h2, h2'⟩
    · exact Or.inl (h1.trans h2)
    · exact Or.inl (h2 ▸ h1)
    · exact Or.inl (h1 ▸ h2)
    · exact Or.inr ⟨h1.trans h2, h1'.trans h2'⟩

/-- The host-side per-query selection in `GpuIndex::search`: build the
candidate pairs `(score, row)` for the `current_count` rows of query
column `q` (the host reads `all_scores[q * current_count + i]`), run
`std::partial_sort` up to `safe_k = min k count` under `pair::operator<`
— on pairwise-distinct candidates this yields exactly the first `safe_k`
elements of the full sort — and emit `{row, score}` results. -/
def searchOneQuery (db queries : List (List ℚ)) (k : Nat) (q : Nat) : List SearchResult :=
  let count := db.length
  let candidates := (List.range count).map (fun i => (l2Cell db queries (q * count + i), i))
  let sorted := List.insertionSort pairLe candidates
  (sorted.take (min k count)).map (fun p => { id := p.2, score := p.1 })

/-- `GpuIndex::search` over a database of `current_count` stored rows:
one result list per query column.  The code has no early exit other than
the empty-batch case (`num_queries == 0` returns `{}`, which coincides
with the general formula) and no batch-size validation. -/
def search (db queries : List (List ℚ)) (k : Nat) : List (List SearchResult) :=
  (List.range queries.length).map (searchOneQuery db queries k)

/-- The C8 scenario: insert `u` with row `r1`, remove `u`, insert `u`
again with row `r2`.  Returns the two insert results and the final
state. -/
def insertRemoveInsert (st : IdSlab) (u : Nat) (r1 r2 : Int) :
    Option Nat × Option Nat × IdSlab :=
  let p1 := st.insert u r1
  let st2 := (p1.2.1.remove u).1
  let p3 := st2.insert u r2
  (p1.1, p3.1, p3.2.1)

/-! ### Concrete instances used by witnesses and counterexamples -/

/-- A slab file whose header magic is not `0x26872687`, used to exercise
the constructor's open-existing path. -/
def badMagicSlab : MatrixSlab :=
  { header := { magic := 12345, version := 1, count := 0, dim := 4, capacity := 1000 }
    data := [] }

/-- A batch of 101 one-dimensional queries, one more than
`max_batch_size`. -/
def oversizedBatch : List (List ℚ) := List.replicate 101 [1]

/-- A concrete slab used to witness C6: dim 2, capacity 2, count 1, one
stored row `[1, 2]`. -/
def c6slab : MatrixSlab :=
  ⟨⟨0x26872687, 0, 1, 2, 2⟩, [1, 2, 0, 0]⟩

/-- The vector appended in the C6 witness. -/
def c6vec : List ℚ := [5, 6]

/-- The complete INSERT record (user 5, auto 0, row 3) of the C2 failing
log. -/
def c2rec : LogRec := ⟨1, 5, 0, 3⟩

/-- The two-row database used by the C4 and C5 witnesses. -/
def c4db : List (List ℚ) := [[1], [2]]

/-- The one-query batch used by the C4 and C5 witnesses. -/
def c4queries : List (List ℚ) := [[0]]

/-! ### Shared lemmas about the association-list map -/

theorem mapFind_mapErase_self (m : List (Nat × Nat)) (k : Nat) :
    mapFind (mapErase m k) k = none := by
  unfold mapFind mapErase
  rw [Option.map_eq_none']
  rw [List.find?_eq_none]
  intro p hp
  have h := List.of_mem_filter hp
  simp only [bne_iff_ne, ne_eq] at h
  simp only [beq_iff_eq]
  exact h

theorem mapFind_mapInsert_self (m : List (Nat × Nat)) (k v : Nat) :
    mapFind (mapInsert m k v) k = some v := by
  unfold mapFind mapInsert
  rw [List.find?_cons_of_pos _ (by simp)]
  rfl

/-! ### Claim theorems -/


/-- C1 (counterexample): opening an existing slab file whose magic field
is `12345` does not fail — the constructor completes and the resulting
state still carries magic `12345`, which differs from `0x26872687`.  This
refutes both halves of the claim: a mismatched magic does not make the
open fail, and a successful open can leave the magic different from
`0x26872687`. -/
theorem C1_counterexample :
    (MatrixSlab.construct true badMagicSlab 4).header.magic = 12345 ∧
      (12345 : Nat) ≠ 0x26872687 := by
  exact ⟨rfl, by decide⟩

/-- C1 (amended): the constructor performs no magic verification at all.
Opening an existing file succeeds unconditionally and returns the on-disk
state unchanged (whatever its magic); only creation of a new file writes
the magic `0x26872687` into the header. -/
theorem C1_no_magic_check (on_disk : MatrixSlab) (dimension : Nat) :
    MatrixSlab.construct true on_disk dimension = on_disk ∧
      (MatrixSlab.construct false on_disk dimension).header.magic = 0x26872687 := by
  exact ⟨rfl, rfl⟩

/-- C3: inserting a user id that is already mapped fails (returns `none`)
and has no side effects: the user→auto map, the auto→row array and the
next-auto-id counter are unchanged, and no bytes are appended to the log
file. -/
theorem C3_insert_duplicate_noop (st : IdSlab) (u : Nat) (r : Int)
    (h : (mapFind st.user_auto u).isSome) :
    (st.insert u r).1 = none ∧ (st.insert u r).2.1 = st ∧ (st.insert u r).2.2 = [] := by
  simp [IdSlab.insert, h]

/-- C3 (witness): with user 7 live, inserting `(7, 5)` returns `none` and
changes nothing. -/
theorem C3_witness :
    (mapFind (IdSlab.mk [(7, 0)] [5] 1).user_auto 7).isSome ∧
    ((IdSlab.mk [(7, 0)] [5] 1).insert 7 5).1 = none ∧
    ((IdSlab.mk [(7, 0)] [5] 1).insert 7 5).2.1 = IdSlab.mk [(7, 0)] [5] 1 ∧
    ((IdSlab.mk [(7, 0)] [5] 1).insert 7 5).2.2 = [] :=
  ⟨by decide,
   C3_insert_duplicate_noop (IdSlab.mk [(7, 0)] [5] 1) 7 5 (by decide)⟩


/-- C7 (counterexample): a search whose query list is longer than
`max_batch_size` does not fail — `GpuIndex::search` contains no batch-size
check (its only early exit is the empty batch), so the call proceeds and
returns a result list for every one of the 101 queries. -/
theorem C7_counterexample :
    search [] oversizedBatch 5 = List.replicate 101 [] := by
  decide

/-- C7 (amended): `search` performs no validation of the batch size: a
call with more than `max_batch_size` queries proceeds without any reported
error and returns one result list per query.  (On real hardware such a
call overruns the fixed device buffers; the caller is responsible for
chunking.) -/
theorem C7_no_batch_check (db queries : List (List ℚ)) (k : Nat)
    (h : max_batch_size < queries.length) :
    (search db queries k).length = queries.length := by
  simp [search]

/-- C7 (witness): the amended statement at the 101-query batch. -/
theorem C7_witness :
    max_batch_size < oversizedBatch.length ∧
    (search [] oversizedBatch 5).length = oversizedBatch.length :=
  ⟨by decide, C7_no_batch_check [] oversizedBatch 5 (by decide)⟩

/-! ### List lemmas for the data region -/

theorem write_readback {α : Type} (data v : List α) (off d : Nat)
    (hoff : off ≤ data.length) (hv : v.length = d) :
    ((data.take off ++ v ++ data.drop (off + d)).drop off).take d = v := by
  rw [List.append_assoc,
    List.drop_left' (by rw [List.length_take]; omega),
    List.take_left' hv]

theorem write_preserves_before {α : Type} (data v : List α) (off i d : Nat)
    (hoff : off ≤ data.length) (hi : i + d ≤ off) :
    ((data.take off ++ v ++ data.drop (off + d)).drop i).take d = (data.drop i).take d := by
  rw [List.append_assoc,
    List.drop_append_of_le_length (by rw [List.length_take]; omega),
    List.take_append_of_le_length (by rw [List.length_drop, List.length_take]; omega),
    List.drop_take, List.take_take]
  congr 1
  omega

theorem extend_preserves_read {α : Type} (data zs : List α) (i d : Nat)
    (hi : i + d ≤ data.length) :
    ((data ++ zs).drop i).take d = (data.drop i).take d := by
  rw [List.drop_append_of_le_length (by omega),
    List.take_append_of_le_length (by rw [List.length_drop]; omega)]

/-! ### Characterisations of `MatrixSlab.add_vector` -/

theorem add_vector_count (m : MatrixSlab) (v : List ℚ) :
    (m.add_vector v).header.count = m.header.count + 1 := by
  rw [MatrixSlab.add_vector]
  by_cases h : m.header.capacity ≤ m.header.count
  · simp only [if_pos h]
    rfl
  · simp only [if_neg h]

theorem add_vector_capacity (m : MatrixSlab) (v : List ℚ) :
    (m.add_vector v).header.capacity =
      if m.header.capacity ≤ m.header.count then m.header.capacity * 2
      else m.header.capacity := by
  rw [MatrixSlab.add_vector]
  by_cases h : m.header.capacity ≤ m.header.count
  · simp only [if_pos h]
    rfl
  · simp only [if_neg h]

theorem add_vector_no_grow (m : MatrixSlab) (v : List ℚ)
    (h : m.header.count < m.header.capacity) :
    m.add_vector v = ⟨⟨m.header.magic, m.header.version, m.header.count + 1,
        m.header.dim, m.header.capacity⟩,
      m.data.take (m.header.count * m.header.dim) ++ v ++
        m.data.drop (m.header.count * m.header.dim + m.header.dim)⟩ := by
  rw [MatrixSlab.add_vector]
  simp only [if_neg (by omega : ¬ m.header.capacity ≤ m.header.count)]

theorem add_vector_grow (m : MatrixSlab) (v : List ℚ)
    (h : m.header.capacity ≤ m.header.count)
    (hlen : m.data.length ≤ m.header.capacity * 2 * m.header.dim) :
    m.add_vector v = ⟨⟨m.header.magic, m.header.version, m.header.count + 1,
        m.header.dim, m.header.capacity * 2⟩,
      (m.data ++ List.replicate (m.header.capacity * 2 * m.header.dim - m.data.length) 0).take
          (m.header.count * m.header.dim) ++ v ++
        (m.data ++ List.replicate (m.header.capacity * 2 * m.header.dim - m.data.length) 0).drop
          (m.header.count * m.header.dim + m.header.dim)⟩ := by
  rw [MatrixSlab.add_vector]
  simp only [if_pos h, MatrixSlab.grow_file, List.take_of_length_le hlen]

/-- C6: appending a `dim`-length vector at count `n` (on a state whose
data region has its declared `capacity * dim` extent and whose count is
within capacity) increments the count, makes row `n` read back as exactly
the appended vector, and leaves every previously stored row `0..n-1`
identical — including when the append triggers capacity growth. -/
theorem C6_append_roundtrip (m : MatrixSlab) (v : List ℚ)
    (hlen : m.data.length = m.header.capacity * m.header.dim)
    (hcnt : m.header.count ≤ m.header.capacity)
    (hv : v.length = m.header.dim) :
    (m.add_vector v).header.count = m.header.count + 1 ∧
    (m.add_vector v).readRow m.header.count = v ∧
    ∀ r, r < m.header.count → (m.add_vector v).readRow r = m.readRow r := by
  have hcd : m.header.count * m.header.dim ≤ m.header.capacity * m.header.dim :=
    Nat.mul_le_mul hcnt (le_refl _)
  have hext : m.data.length ≤ m.header.capacity * 2 * m.header.dim := by
    have h2 : m.header.capacity * m.header.dim ≤ m.header.capacity * 2 * m.header.dim :=
      Nat.mul_le_mul (by omega) (le_refl _)
    omega
  have hoff2 : m.header.count * m.header.dim ≤
      (m.data ++ List.replicate (m.header.capacity * 2 * m.header.dim - m.data.length) 0).length := by
    rw [List.length_append, List.length_replicate]
    omega
  refine ⟨add_vector_count m v, ?_, ?_⟩
  · by_cases hfull : m.header.capacity ≤ m.header.count
    · rw [add_vector_grow m v hfull hext, MatrixSlab.readRow]
      exact write_readback _ v _ _ hoff2 hv
    · have hoffn : m.header.count * m.header.dim ≤ m.data.length := by omega
      rw [add_vector_no_grow m v (by omega), MatrixSlab.readRow]
      exact write_readback _ v _ _ hoffn hv
  · intro r hr
    have hr1 : r * m.header.dim + m.header.dim ≤ m.header.count * m.header.dim := by
      have h2 : (r + 1) * m.header.dim ≤ m.header.count * m.header.dim :=
        Nat.mul_le_mul (by omega) (le_refl _)
      have h3 : (r + 1) * m.header.dim = r * m.header.dim + m.header.dim := Nat.succ_mul r _
      omega
    have hpre : r * m.header.dim + m.header.dim ≤ m.data.length := by omega
    by_cases hfull : m.header.capacity ≤ m.header.count
    · rw [add_vector_grow m v hfull hext, MatrixSlab.readRow, MatrixSlab.readRow,
        write_preserves_before _ v _ _ _ hoff2 hr1]
      exact extend_preserves_read m.data _ _ _ hpre
    · have hoffn : m.header.count * m.header.dim ≤ m.data.length := by omega
      rw [add_vector_no_grow m v (by omega), MatrixSlab.readRow, MatrixSlab.readRow]
      exact write_preserves_before _ v _ _ _ hoffn hr1


/-- C6 (witness): the round-trip at the concrete slab `c6slab`. -/
theorem C6_witness :
    (c6slab.data.length = c6slab.header.capacity * c6slab.header.dim ∧
     c6slab.header.count ≤ c6slab.header.capacity ∧
     c6vec.length = c6slab.header.dim) ∧
    ((c6slab.add_vector c6vec).header.count = c6slab.header.count + 1 ∧
     (c6slab.add_vector c6vec).readRow c6slab.header.count = c6vec ∧
     ∀ r, r < c6slab.header.count → (c6slab.add_vector c6vec).readRow r = c6slab.readRow r) :=
  ⟨⟨by decide, by decide, by decide⟩,
   C6_append_roundtrip c6slab c6vec (by decide) (by decide) (by decide)⟩

/-- C9: every state reachable from creation of a new file by appends
satisfies `count ≤ capacity` and `capacity ≥ INITIAL_CAPACITY`; an append
performed when `count = capacity` doubles the capacity; and the capacity
never decreases across an append. -/
theorem C9_capacity_invariant (m : MatrixSlab) (h : MatrixSlab.Reachable m) :
    (m.header.count ≤ m.header.capacity ∧ INITIAL_CAPACITY ≤ m.header.capacity) ∧
    (∀ v : List ℚ, m.header.count = m.header.capacity →
        (m.add_vector v).header.capacity = 2 * m.header.capacity) ∧
    (∀ v : List ℚ, m.header.capacity ≤ (m.add_vector v).header.capacity) := by
  have hdouble : ∀ (m' : MatrixSlab) (v : List ℚ), m'.header.count = m'.header.capacity →
      (m'.add_vector v).header.capacity = 2 * m'.header.capacity := by
    intro m' v hcc
    rw [add_vector_capacity, if_pos (le_of_eq hcc.symm), Nat.mul_comm]
  have hmono : ∀ (m' : MatrixSlab) (v : List ℚ),
      m'.header.capacity ≤ (m'.add_vector v).header.capacity := by
    intro m' v
    rw [add_vector_capacity]
    by_cases hc : m'.header.capacity ≤ m'.header.count
    · rw [if_pos hc]
      omega
    · rw [if_neg hc]
  refine ⟨?_, hdouble m, hmono m⟩
  induction h with
  | create dimension => exact ⟨Nat.zero_le _, Nat.le_refl _⟩
  | append m' v hv hm ih =>
      obtain ⟨ih1, ih2⟩ := ih
      have ih3 : 1000 ≤ m'.header.capacity := ih2
      constructor
      · rw [add_vector_count, add_vector_capacity]
        by_cases hc : m'.header.capacity ≤ m'.header.count
        · rw [if_pos hc]
          omega
        · rw [if_neg hc]
          omega
      · rw [add_vector_capacity]
        by_cases hc : m'.header.capacity ≤ m'.header.count
        · rw [if_pos hc]
          omega
        · rw [if_neg hc]
          exact ih2

/-- C9 (witness): the invariant at the freshly created slab of dimension
4. -/
theorem C9_witness :
    MatrixSlab.Reachable (MatrixSlab.create 4) ∧
    (((MatrixSlab.create 4).header.count ≤ (MatrixSlab.create 4).header.capacity ∧
      INITIAL_CAPACITY ≤ (MatrixSlab.create 4).header.capacity) ∧
     (∀ v : List ℚ, (MatrixSlab.create 4).header.count = (MatrixSlab.create 4).header.capacity →
        ((MatrixSlab.create 4).add_vector v).header.capacity =
          2 * (MatrixSlab.create 4).header.capacity) ∧
     (∀ v : List ℚ, (MatrixSlab.create 4).header.capacity ≤
        ((MatrixSlab.create 4).add_vector v).header.capacity)) :=
  ⟨MatrixSlab.Reachable.create 4,
   C9_capacity_invariant (MatrixSlab.create 4) (MatrixSlab.Reachable.create 4)⟩

/-! ### Unfolding lemmas for IdSlab operations -/

theorem insert_not_mapped (st : IdSlab) (u : Nat) (r : Int)
    (hu : mapFind st.user_auto u = none) :
    st.insert u r =
      (some st.auto_id,
       ⟨mapInsert st.user_auto u st.auto_id, st.auto_row ++ [r], st.auto_id + 1⟩,
       encodeRecord ⟨1, u, st.auto_id, r⟩) := by
  unfold IdSlab.insert
  rw [hu]
  rfl

theorem remove_mapped (st : IdSlab) (u : Nat) (aid : Nat)
    (h : mapFind st.user_auto u = some aid) :
    st.remove u =
      (⟨mapErase st.user_auto u,
        if aid < st.auto_row.length then st.auto_row.set aid (-1) else st.auto_row,
        st.auto_id⟩,
       encodeRecord ⟨2, u, aid, -1⟩) := by
  unfold IdSlab.remove
  rw [h]

theorem get_row_from_user_mapped (st : IdSlab) (u aid : Nat)
    (h : mapFind st.user_auto u = some aid) :
    st.get_row_from_user u = st.get_row aid := by
  unfold IdSlab.get_row_from_user
  rw [h]

theorem get_row_in_range (st : IdSlab) (aid : Nat) (h : aid < st.auto_row.length) :
    st.get_row aid = st.auto_row.getD aid (-1) := by
  unfold IdSlab.get_row
  rw [if_pos h]

theorem getD_append_at (X : List Int) (x : Int) (n : Nat) (h : X.length = n) :
    (X ++ [x]).getD n (-1) = x := by
  subst h
  rw [List.getD_eq_getElem?_getD, List.getElem?_append_right (le_refl _)]
  simp

/-- C8: starting from a state where `u` is unmapped (and the
reachable-state invariant `auto_id = |auto_row|` holds), insert `u`,
remove `u`, then insert `u` again: the second insert succeeds with a
strictly larger auto id than the first, and afterwards looking up `u`
yields the second row. -/
theorem C8_reinsert_fresh_id (st : IdSlab) (u : Nat) (r1 r2 : Int)
    (hu : mapFind st.user_auto u = none)
    (hinv : st.auto_id = st.auto_row.length) :
    ∃ a1 a2 : Nat,
      (insertRemoveInsert st u r1 r2).1 = some a1 ∧
      (insertRemoveInsert st u r1 r2).2.1 = some a2 ∧
      a1 < a2 ∧
      (insertRemoveInsert st u r1 r2).2.2.get_row_from_user u = r2 := by
  have hlapp : (st.auto_row ++ [r1]).length = st.auto_row.length + 1 := by simp
  have hcond : st.auto_id < (st.auto_row ++ [r1]).length := by omega
  have hstep : insertRemoveInsert st u r1 r2 =
      (some st.auto_id, some (st.auto_id + 1),
       ⟨mapInsert (mapErase (mapInsert st.user_auto u st.auto_id) u) u (st.auto_id + 1),
        ((st.auto_row ++ [r1]).set st.auto_id (-1)) ++ [r2],
        st.auto_id + 1 + 1⟩) := by
    rw [insertRemoveInsert]
    rw [insert_not_mapped st u r1 hu]
    rw [remove_mapped ⟨mapInsert st.user_auto u st.auto_id, st.auto_row ++ [r1], st.auto_id + 1⟩
          u st.auto_id (mapFind_mapInsert_self _ _ _)]
    rw [if_pos hcond]
    rw [insert_not_mapped
          ⟨mapErase (mapInsert st.user_auto u st.auto_id) u,
           (st.auto_row ++ [r1]).set st.auto_id (-1),
           st.auto_id + 1⟩
          u r2 (mapFind_mapErase_self _ _)]
  have hXlen : ((st.auto_row ++ [r1]).set st.auto_id (-1)).length = st.auto_id + 1 := by
    rw [List.length_set]
    omega
  refine ⟨st.auto_id, st.auto_id + 1, ?_, ?_, Nat.lt_succ_self _, ?_⟩
  · rw [hstep]
  · rw [hstep]
  · rw [hstep]
    rw [get_row_from_user_mapped _ u (st.auto_id + 1) (mapFind_mapInsert_self _ _ _)]
    rw [get_row_in_range _ _ (by simp [List.length_append, hXlen])]
    exact getD_append_at _ r2 _ hXlen

/-- C8 (witness): the scenario on the empty slab with user 7. -/
theorem C8_witness :
    mapFind (IdSlab.mk [] [] 0).user_auto 7 = none ∧
    (IdSlab.mk [] [] 0).auto_id = (IdSlab.mk [] [] 0).auto_row.length ∧
    ∃ a1 a2 : Nat,
      (insertRemoveInsert (IdSlab.mk [] [] 0) 7 0 2).1 = some a1 ∧
      (insertRemoveInsert (IdSlab.mk [] [] 0) 7 0 2).2.1 = some a2 ∧
      a1 < a2 ∧
      (insertRemoveInsert (IdSlab.mk [] [] 0) 7 0 2).2.2.get_row_from_user 7 = 2 :=
  ⟨by decide, rfl, C8_reinsert_fresh_id (IdSlab.mk [] [] 0) 7 0 2 (by decide) rfl⟩

/-! ### Byte-level replay lemmas -/

theorem decodeLE_toBytes8 (n : Nat) (h : n < 18446744073709551616) :
    decodeLE (toBytes8 n) = n := by
  simp only [decodeLE, toBytes8, List.foldr]
  omega

theorem int64ToNat_lt (i : Int) : int64ToNat i < 18446744073709551616 := by
  unfold int64ToNat
  omega

theorem asInt64_int64ToNat (i : Int)
    (h1 : -9223372036854775808 ≤ i) (h2 : i < 9223372036854775808) :
    asInt64 (int64ToNat i) = i := by
  unfold asInt64 int64ToNat
  split <;> omega

theorem length_toBytes8 (n : Nat) : (toBytes8 n).length = 8 := rfl

/-- Running the replay loop on one complete encoded record followed by
the remaining bytes: the three field reads succeed, the loop body applies
the record, the registers now hold its fields, and the loop continues on
the tail. -/
theorem replayLoop_encode_cons (r : LogRec) (hwf : r.wf) (bs : List Nat)
    (ruid raid rrow : Nat) (st : IdSlab) :
    replayLoop (encodeRecord r ++ bs) ruid raid rrow st =
      replayLoop bs r.uid r.aid (int64ToNat r.row)
        (replayStep st r.op r.uid r.aid r.row) := by
  obtain ⟨ho, hu, ha, hr1, hr2⟩ := hwf
  have e1 : decodeLE (toBytes8 r.uid) = r.uid := decodeLE_toBytes8 _ hu
  have e2 : decodeLE (toBytes8 r.aid) = r.aid := decodeLE_toBytes8 _ ha
  have e3 : decodeLE (toBytes8 (int64ToNat r.row)) = int64ToNat r.row :=
    decodeLE_toBytes8 _ (int64ToNat_lt _)
  have e4 : asInt64 (int64ToNat r.row) = r.row := asInt64_int64ToNat _ hr1 hr2
  rw [encodeRecord, List.cons_append, List.append_assoc, List.append_assoc]
  rw [replayLoop]
  rw [List.drop_left' (length_toBytes8 r.uid)]
  rw [List.take_left' (length_toBytes8 r.uid)]
  rw [List.drop_left' (length_toBytes8 r.aid)]
  rw [List.take_left' (length_toBytes8 r.aid)]
  rw [List.drop_left' (length_toBytes8 (int64ToNat r.row))]
  rw [List.take_left' (length_toBytes8 (int64ToNat r.row))]
  rw [if_pos (by simp [toBytes8])]
  rw [if_pos (by simp [toBytes8])]
  rw [if_pos (by simp [toBytes8])]
  rw [e1, e2, e3, e4]

/-- Replaying exactly one complete encoded record applies it and stops. -/
theorem replayLoop_encode_one (r : LogRec) (hwf : r.wf) (ruid raid rrow : Nat) (st : IdSlab) :
    replayLoop (encodeRecord r) ruid raid rrow st =
      replayStep st r.op r.uid r.aid r.row := by
  have h := replayLoop_encode_cons r hwf [] ruid raid rrow st
  rw [List.append_nil] at h
  rw [h, replayLoop]

/-- Each iteration of the replay loop body keeps `auto_id` at most the
length of `auto_row`: an INSERT that raises `auto_id` to `aid + 1` has
just resized `auto_row` to length at least `aid + 1`. -/
theorem replayStep_le (st : IdSlab) (op uid aid : Nat) (row : Int)
    (h : st.auto_id ≤ st.auto_row.length) :
    (replayStep st op uid aid row).auto_id ≤
      (replayStep st op uid aid row).auto_row.length := by
  obtain ⟨ua, ar, ai⟩ := st
  simp only [replayStep] at h ⊢
  by_cases h1 : op = 1
  · rw [if_pos h1]
    simp only [List.length_set]
    by_cases h2 : ar.length ≤ aid
    · rw [if_pos h2]
      simp only [List.length_append, List.length_replicate]
      by_cases h3 : ai ≤ aid
      · rw [if_pos h3]
        omega
      · rw [if_neg h3]
        omega
    · rw [if_neg h2]
      by_cases h3 : ai ≤ aid
      · rw [if_pos h3]
        omega
      · rw [if_neg h3]
        omega
  · rw [if_neg h1]
    by_cases h2 : op = 2
    · rw [if_pos h2]
      by_cases h3 : aid < ar.length
      · rw [if_pos h3]
        simp only [List.length_set]
        omega
      · rw [if_neg h3]
        exact h
    · rw [if_neg h2]
      exact h

/-- Replaying any well-formed encoded log keeps `auto_id ≤ |auto_row|`. -/
theorem replayLoop_encodeLog_le (rs : List LogRec) :
    ∀ (ruid raid rrow : Nat) (st : IdSlab), (∀ r ∈ rs, r.wf) →
      st.auto_id ≤ st.auto_row.length →
      (replayLoop (encodeLog rs) ruid raid rrow st).auto_id ≤
        (replayLoop (encodeLog rs) ruid raid rrow st).auto_row.length := by
  induction rs with
  | nil =>
      intro a b c st hwf h
      have henc : encodeLog [] = ([] : List Nat) := rfl
      rw [henc, replayLoop]
      exact h
  | cons r rs ih =>
      intro a b c st hwf h
      have henc : encodeLog (r :: rs) = encodeRecord r ++ encodeLog rs := by
        simp [encodeLog]
      rw [henc, replayLoop_encode_cons r (hwf r (by simp)) (encodeLog rs) a b c st]
      exact ih _ _ _ _ (fun x hx => hwf x (by simp [hx]))
        (replayStep_le st r.op r.uid r.aid r.row h)

/-- C10: after construction by replaying any log of well-formed records,
`auto_id` equals the length of `auto_row`; the equality is preserved by
`insert` and `remove`; and consequently a successful `insert(u, r)` —
which extends `auto_row` with `push_back` — stores `r` exactly at the
index equal to the auto id it returns, so `get_row` of that id yields `r`
immediately. -/
theorem C10_auto_id_invariant :
    (∀ (rs : List LogRec) (ruid raid rrow : Nat), (∀ r ∈ rs, r.wf) →
        (replay_log (encodeLog rs) ruid raid rrow).auto_id =
          (replay_log (encodeLog rs) ruid raid rrow).auto_row.length) ∧
    (∀ (st : IdSlab) (u : Nat) (ri : Int), st.auto_id = st.auto_row.length →
        (st.insert u ri).2.1.auto_id = (st.insert u ri).2.1.auto_row.length ∧
        (st.remove u).1.auto_id = (st.remove u).1.auto_row.length ∧
        ∀ a, (st.insert u ri).1 = some a → (st.insert u ri).2.1.get_row a = ri) := by
  constructor
  · intro rs a b c hwf
    have h := replayLoop_encodeLog_le rs a b c ⟨[], [], 0⟩ hwf (by simp)
    simp only [replay_log]
    omega
  · intro st u ri hinv
    refine ⟨?_, ?_, ?_⟩
    · by_cases hdup : (mapFind st.user_auto u).isSome
      · unfold IdSlab.insert
        rw [if_pos hdup]
        exact hinv
      · have hu : mapFind st.user_auto u = none :=
          Option.not_isSome_iff_eq_none.mp hdup
        rw [insert_not_mapped st u ri hu]
        simp only [List.length_append, List.length_cons, List.length_nil]
        omega
    · rcases hmap : mapFind st.user_auto u with _ | aid
      · unfold IdSlab.remove
        rw [hmap]
        exact hinv
      · rw [remove_mapped st u aid hmap]
        by_cases hlt : aid < st.auto_row.length
        · rw [if_pos hlt]
          simp only [List.length_set]
          exact hinv
        · rw [if_neg hlt]
          exact hinv
    · intro a ha
      by_cases hdup : (mapFind st.user_auto u).isSome
      · unfold IdSlab.insert at ha
        rw [if_pos hdup] at ha
        simp at ha
      · have hu : mapFind st.user_auto u = none :=
          Option.not_isSome_iff_eq_none.mp hdup
        rw [insert_not_mapped st u ri hu] at ha ⊢
        simp only [Option.some.injEq] at ha
        have hlt : a < (st.auto_row ++ [ri]).length := by
          simp only [List.length_append, List.length_cons, List.length_nil]
          omega
        show (IdSlab.mk (mapInsert st.user_auto u st.auto_id) (st.auto_row ++ [ri])
          (st.auto_id + 1)).get_row a = ri
        rw [get_row_in_range _ _ hlt]
        exact getD_append_at _ ri _ (by omega)

/-- C10 (witness): the invariant at a one-record log and a concrete insert
on the empty slab. -/
theorem C10_witness :
    ((∀ r ∈ [(⟨1, 5, 0, 3⟩ : LogRec)], r.wf) ∧
     (replay_log (encodeLog [⟨1, 5, 0, 3⟩]) 0 0 0).auto_id =
       (replay_log (encodeLog [⟨1, 5, 0, 3⟩]) 0 0 0).auto_row.length) ∧
    ((IdSlab.mk [] [] 0).auto_id = (IdSlab.mk [] [] 0).auto_row.length ∧
     (((IdSlab.mk [] [] 0).insert 7 4).2.1.auto_id =
        ((IdSlab.mk [] [] 0).insert 7 4).2.1.auto_row.length ∧
      ((IdSlab.mk [] [] 0).remove 7).1.auto_id =
        ((IdSlab.mk [] [] 0).remove 7).1.auto_row.length ∧
      ∀ a, ((IdSlab.mk [] [] 0).insert 7 4).1 = some a →
        ((IdSlab.mk [] [] 0).insert 7 4).2.1.get_row a = 4)) :=
  ⟨⟨by decide, C10_auto_id_invariant.1 [⟨1, 5, 0, 3⟩] 0 0 0 (by decide)⟩,
   rfl, C10_auto_id_invariant.2 (IdSlab.mk [] [] 0) 7 4 rfl⟩

/-- C2 (code bug): the log consisting of one complete INSERT record
(user 5, auto 0, row 3) followed by a single trailing byte `0x02` is NOT
replayed as if the fragment were absent.  Reading the fragment's op byte
succeeds, the three field reads fail and leave the loop's variables at
their values from the previous (complete) record, and the loop body still
runs: a phantom DELETE of user 5 with auto id 0 is applied.  Replaying
only the complete record leaves user 5 mapped to row 3; with the
fragment appended, user 5 is gone and its row slot is tombstoned. -/
theorem C2_partial_fragment_not_ignored :
    (replay_log (encodeLog [c2rec]) 0 0 0).get_row_from_user 5 = 3 ∧
    (replay_log (encodeLog [c2rec]) 0 0 0).user_auto = [(5, 0)] ∧
    (replay_log (encodeLog [c2rec]) 0 0 0).auto_row = [3] ∧
    (replay_log (encodeLog [c2rec] ++ [2]) 0 0 0).get_row_from_user 5 = -1 ∧
    (replay_log (encodeLog [c2rec] ++ [2]) 0 0 0).user_auto = [] ∧
    (replay_log (encodeLog [c2rec] ++ [2]) 0 0 0).auto_row = [-1] := by
  have henc : encodeLog [c2rec] = encodeRecord c2rec := by simp [encodeLog]
  have hwf : c2rec.wf := by decide
  have h1 : replayLoop (encodeLog [c2rec]) 0 0 0 ⟨[], [], 0⟩ = ⟨[(5, 0)], [3], 1⟩ := by
    rw [henc, replayLoop_encode_one c2rec hwf]
    decide
  have h2 : replayLoop (encodeLog [c2rec] ++ [2]) 0 0 0 ⟨[], [], 0⟩ = ⟨[], [-1], 1⟩ := by
    rw [henc, replayLoop_encode_cons c2rec hwf [2] 0 0 0 _]
    rw [replayLoop]
    decide
  have h3 : replay_log (encodeLog [c2rec]) 0 0 0 = ⟨[(5, 0)], [3], 1⟩ := by
    simp only [replay_log, h1]
    decide
  have h4 : replay_log (encodeLog [c2rec] ++ [2]) 0 0 0 = ⟨[], [-1], 1⟩ := by
    simp only [replay_log, h2]
    decide
  refine ⟨?_, ?_, ?_, ?_, ?_, ?_⟩
  · rw [h3]
    decide
  · rw [h3]
  · rw [h3]
  · rw [h4]
    decide
  · rw [h4]
  · rw [h4]

/-! ### Top-k selection lemmas -/

theorem searchOneQuery_eq (db queries : List (List ℚ)) (k q : Nat) :
    searchOneQuery db queries k q =
      ((List.insertionSort pairLe ((List.range db.length).map
          (fun i => (l2Cell db queries (q * db.length + i), i)))).take
        (min k db.length)).map (fun p => (⟨p.2, p.1⟩ : SearchResult)) := rfl

/-- Shape of the per-query output of the host-side top-k selection, for
any candidate list with pairwise-distinct row indices. -/
theorem topk_spec (cand : List (ℚ × Nat)) (m : Nat)
    (hnodup : (cand.map Prod.snd).Nodup) :
    (((List.insertionSort pairLe cand).take m).map
        (fun p => (⟨p.2, p.1⟩ : SearchResult))).length = min m cand.length ∧
    List.Pairwise (fun a b : SearchResult =>
        a.score < b.score ∨ (a.score = b.score ∧ a.id < b.id))
      (((List.insertionSort pairLe cand).take m).map
        (fun p => (⟨p.2, p.1⟩ : SearchResult))) ∧
    ((((List.insertionSort pairLe cand).take m).map
        (fun p => (⟨p.2, p.1⟩ : SearchResult))).map SearchResult.id).Nodup := by
  have hperm := List.perm_insertionSort pairLe cand
  have hsort := List.sorted_insertionSort pairLe cand
  have hlen : (List.insertionSort pairLe cand).length = cand.length := hperm.length_eq
  have hsub := List.take_sublist m (List.insertionSort pairLe cand)
  have hnodup2 : ((List.insertionSort pairLe cand).map Prod.snd).Nodup :=
    ((hperm.map Prod.snd).nodup_iff).mpr hnodup
  have hnodup3 : (((List.insertionSort pairLe cand).take m).map Prod.snd).Nodup := by
    rw [List.map_take]
    exact hnodup2.sublist (List.take_sublist _ _)
  have hpw : List.Pairwise pairLe ((List.insertionSort pairLe cand).take m) :=
    hsort.sublist hsub
  have hne : List.Pairwise (fun a b : ℚ × Nat => a.2 ≠ b.2)
      ((List.insertionSort pairLe cand).take m) := by
    have h := hnodup3
    rw [List.Nodup, List.pairwise_map] at h
    exact h
  refine ⟨?_, ?_, ?_⟩
  · rw [List.length_map, List.length_take, hlen]
  · rw [List.pairwise_map]
    refine List.Pairwise.imp ?_ (hpw.and hne)
    intro a b hab
    obtain ⟨h1, hne2⟩ := hab
    unfold pairLe at h1
    rcases h1 with h1 | ⟨heq, hle⟩
    · exact Or.inl h1
    · exact Or.inr ⟨heq, Nat.lt_of_le_of_ne hle hne2⟩
  · rw [List.map_map]
    have hcomp : (SearchResult.id ∘ fun p : ℚ × Nat => (⟨p.2, p.1⟩ : SearchResult))
        = Prod.snd := by
      funext p
      rfl
    rw [hcomp]
    exact hnodup3

/-- C4: for a batch of at most `max_batch_size` queries, every per-query
result list of `search` has length exactly `min k current_count`, is
sorted by ascending score with ties broken by ascending row index, and
contains pairwise-distinct row indices; on an empty index every list is
empty. -/
theorem C4_search_result_shape (db queries : List (List ℚ)) (k : Nat)
    (hq : queries.length ≤ max_batch_size) :
    ∀ res ∈ search db queries k,
      res.length = min k db.length ∧
      List.Pairwise (fun a b : SearchResult =>
        a.score < b.score ∨ (a.score = b.score ∧ a.id < b.id)) res ∧
      (res.map SearchResult.id).Nodup ∧
      (db.length = 0 → res = []) := by
  intro res hres
  rw [search, List.mem_map] at hres
  obtain ⟨q, hq2, rfl⟩ := hres
  have hnodup : (((List.range db.length).map
      (fun i => (l2Cell db queries (q * db.length + i), i))).map Prod.snd).Nodup := by
    rw [List.map_map]
    have hcomp : (Prod.snd ∘ fun i => (l2Cell db queries (q * db.length + i), i))
        = id := by
      funext i
      rfl
    rw [hcomp, List.map_id]
    exact List.nodup_range db.length
  have hspec := topk_spec ((List.range db.length).map
      (fun i => (l2Cell db queries (q * db.length + i), i))) (min k db.length) hnodup
  have hclen : ((List.range db.length).map
      (fun i => (l2Cell db queries (q * db.length + i), i))).length = db.length := by
    rw [List.length_map, List.length_range]
  rw [searchOneQuery_eq]
  refine ⟨?_, hspec.2.1, hspec.2.2, ?_⟩
  · rw [hspec.1, hclen]
    omega
  · intro hzero
    apply List.length_eq_zero.mp
    rw [hspec.1, hclen, hzero]
    omega

/-- C4 (witness): the shape properties at a concrete two-row database and
one-query batch. -/
theorem C4_witness :
    c4queries.length ≤ max_batch_size ∧
    ∀ res ∈ search c4db c4queries 5,
      res.length = min 5 c4db.length ∧
      List.Pairwise (fun a b : SearchResult =>
        a.score < b.score ∨ (a.score = b.score ∧ a.id < b.id)) res ∧
      (res.map SearchResult.id).Nodup ∧
      (c4db.length = 0 → res = []) :=
  ⟨by decide, C4_search_result_shape c4db c4queries 5 (by decide)⟩

/-- C5: every score that `search` reports for query column `c` and row
`e.id` equals `‖x‖² + ‖q‖² − 2·x·q` over the embedded exact arithmetic:
the GEMM cell `−2·x·q` at flat index `c·count + row` corrected by the
kernel with `db_norms[idx % count] + q_norms[idx / count]`. -/
theorem C5_distance_identity (db queries : List (List ℚ)) (k c : Nat)
    (hc : c < queries.length) :
    ∀ e ∈ (search db queries k).getD c [],
      e.score = sqnormQ (db.getD e.id []) + sqnormQ (queries.getD c []) -
        2 * dotQ (db.getD e.id []) (queries.getD c []) := by
  intro e he
  have hcol : (search db queries k).getD c [] = searchOneQuery db queries k c := by
    rw [search]
    simp [List.getD_eq_getElem?_getD, List.getElem?_map, List.getElem?_range hc]
  rw [hcol, searchOneQuery_eq, List.mem_map] at he
  obtain ⟨p, hp, rfl⟩ := he
  have hp2 : p ∈ List.insertionSort pairLe ((List.range db.length).map
      (fun i => (l2Cell db queries (c * db.length + i), i))) :=
    List.mem_of_mem_take hp
  rw [(List.perm_insertionSort pairLe _).mem_iff, List.mem_map] at hp2
  obtain ⟨i, hi, rfl⟩ := hp2
  rw [List.mem_range] at hi
  have hpos : 0 < db.length := Nat.lt_of_le_of_lt (Nat.zero_le i) hi
  have hmod : (c * db.length + i) % db.length = i := by
    rw [Nat.mul_comm c db.length, Nat.mul_add_mod, Nat.mod_eq_of_lt hi]
  have hdiv : (c * db.length + i) / db.length = c := by
    rw [Nat.mul_comm c db.length, Nat.mul_add_div hpos, Nat.div_eq_of_lt hi, Nat.add_zero]
  show l2Cell db queries (c * db.length + i) =
    sqnormQ (db.getD i []) + sqnormQ (queries.getD c []) -
      2 * dotQ (db.getD i []) (queries.getD c [])
  rw [l2Cell, gemmCell, hmod, hdiv]
  ring

/-- C5 (witness): the distance identity at the concrete database and
query of the C4 witness. -/
theorem C5_witness :
    0 < c4queries.length ∧
    ∀ e ∈ (search c4db c4queries 5).getD 0 [],
      e.score = sqnormQ (c4db.getD e.id []) + sqnormQ (c4queries.getD 0 []) -
        2 * dotQ (c4db.getD e.id []) (c4queries.getD 0 []) :=
  ⟨by decide, C5_distance_identity c4db c4queries 5 0 (by decide)⟩

end FireDB
